import Mathlib

/-!
# PureCoin proof-of-work engine: a shallow embedding of `src/pow.cpp`

The four consensus functions of `pow.cpp` (`GetNextWorkRequired`,
`CalculateNextWorkRequired`, `PermittedDifficultyTransition`,
`CheckProofOfWork` with `DeriveTarget` / `CheckProofOfWorkImpl`) are
translated statement by statement.

Conventions of the embedding:

* `uint32_t` and `arith_uint256` values are natural numbers; the decoding of
  a compact value is reduced `% 2 ^ 256` explicitly.
* `int64_t` and `int` values are integers (`Int`).  Signed overflow is
  undefined behaviour in C++ and is not given a meaning here.
* `uint256` (a 32-byte blob) is represented by the number its bytes spell in
  little-endian order, which is what `UintToArith256` computes.
* An operation that cannot complete (division by zero, dereference of a null
  ancestor, a product that needs more than 256 bits) makes the enclosing
  function return `none`.

The headers `arith_uint256.h`, `chain.h` and `consensus/params.h` are not
part of the sources at hand; what `pow.cpp` uses from them is modelled from
the written specification and marked as such.
-/

namespace PureCoin

/-! ## 256-bit integers and the compact codec -/

/-- A `uint256` blob, identified with the little-endian number of its 32 bytes. -/
abbrev uint256 := Nat

/-- The conversion `UintToArith256`: the numeric value of a blob. -/
def UintToArith256 (a : uint256) : Nat := a

/-- Byte `i` of a blob, `a.data()[i]`. -/
def uint256.data (a : uint256) (i : Nat) : Nat := a / 256 ^ i % 256

/-- Scan for the highest set bit among the lowest `k` bit positions. -/
def bitsAux : Nat → Nat → Nat
  | 0, _ => 0
  | k + 1, t => if 2 ^ k ≤ t then k + 1 else bitsAux k t

/-- Modelled from the spec: `arith_uint256::bits()` is missing; the codec
"finds the minimal byte-length representation", which needs the position of
the highest set bit plus one (zero for the value zero). -/
def bits (t : Nat) : Nat := bitsAux 256 t

/-- Modelled from the spec: `arith_uint256::SetCompact` is missing. It
"extracts exponent (high byte) and 23-bit mantissa; if exponent ≤ 3, mantissa
is right-shifted; otherwise left-shifted by `8*(exponent-3)` into a 256-bit
field", reports negative "if the mantissa's top bit was flagged sign-negative
and mantissa is nonzero", and reports overflow "if the mantissa is nonzero and
the shift would place significant bits beyond 256 bits, or exponent > 34".
The result is `(target, isNegative, isOverflow)`. -/
def SetCompact (nCompact : Nat) : Nat × Bool × Bool :=
  let nSize := nCompact / 2 ^ 24
  let nWord := nCompact % 2 ^ 23
  let target :=
    if nSize ≤ 3 then nWord / 2 ^ (8 * (3 - nSize))
    else nWord * 2 ^ (8 * (nSize - 3)) % 2 ^ 256
  let fNegative := decide (nWord ≠ 0) && decide (nCompact / 2 ^ 23 % 2 = 1)
  let fOverflow := decide (nWord ≠ 0) &&
    (decide (nSize > 34) || decide (2 ^ 256 ≤ nWord * 2 ^ (8 * (nSize - 3))))
  (target, fNegative, fOverflow)

/-- Modelled from the spec: `arith_uint256::GetCompact` is missing. It is the
inverse of the decoding: it "finds the minimal byte-length representation,
normalizes so the mantissa's top bit does not look like a sign bit (shifts
down one byte and bumps exponent if it would)". -/
def GetCompact (t : Nat) : Nat :=
  let nSize := (bits t + 7) / 8
  let nCompact :=
    if nSize ≤ 3 then t * 2 ^ (8 * (3 - nSize))
    else t / 2 ^ (8 * (nSize - 3))
  if nCompact / 2 ^ 23 % 2 = 1 then
    nCompact / 2 ^ 8 + (nSize + 1) * 2 ^ 24
  else
    nCompact + nSize * 2 ^ 24

/-- Modelled from the spec: `arith_uint256::operator*=` is missing. The
multiplication by a 64-bit scalar is "performed in full 256-bit space"; "if a
product would require more than 256 bits" this is "a reported overflow error",
"explicitly detected and reported, never silently wrapped". There is a product
only when the exact value lies in `[0, 2 ^ 256)`. -/
def mul256 (a : Nat) (b : Int) : Option Nat :=
  if 0 ≤ (a : Int) * b ∧ (a : Int) * b < 2 ^ 256 then some ((a : Int) * b).toNat
  else none

/-- Modelled from the spec: `arith_uint256::operator/=` is missing. The
division by a 64-bit scalar is "truncating, non-negative divisor required";
there is no quotient for a divisor that is zero or negative. -/
def div256 (a : Nat) (b : Int) : Option Nat :=
  if b ≤ 0 then none else some (a / b.toNat)

/-! ## Consensus parameters and the block index -/

/-- The fields of `Consensus::Params` that `pow.cpp` reads. -/
structure Params where
  powLimit : uint256
  nPowTargetTimespan : Int
  nPowTargetSpacing : Int
  fPowAllowMinDifficultyBlocks : Bool
  fPowNoRetargeting : Bool
  enforce_BIP94 : Bool

/-- Modelled from the spec: `Params::DifficultyAdjustmentInterval` is missing;
`difficultyAdjustmentInterval = nPowTargetTimespan / nPowTargetSpacing`, a
64-bit signed division, which has no value for a zero spacing. -/
def Params.DifficultyAdjustmentInterval (params : Params) : Option Int :=
  if params.nPowTargetSpacing = 0 then none
  else some (params.nPowTargetTimespan.tdiv params.nPowTargetSpacing)

/-- The header of the block being built or checked (`CBlockHeader`); the
retarget rule receives it and does not read it. -/
structure CBlockHeader where
  nTime : Nat
  nBits : Nat

/-- An entry of the block index (`CBlockIndex`) with the chain of its
ancestors: `genesis` has a null `pprev`, `child` points to its parent. -/
inductive CBlockIndex where
  | genesis (nHeight : Int) (nTime : Nat) (nBits : Nat) : CBlockIndex
  | child (nHeight : Int) (nTime : Nat) (nBits : Nat) (parent : CBlockIndex) : CBlockIndex

/-- The field `nHeight`. -/
def CBlockIndex.nHeight : CBlockIndex → Int
  | .genesis h _ _ => h
  | .child h _ _ _ => h

/-- The field `nTime`. -/
def CBlockIndex.nTime : CBlockIndex → Nat
  | .genesis _ t _ => t
  | .child _ t _ _ => t

/-- The field `nBits`. -/
def CBlockIndex.nBits : CBlockIndex → Nat
  | .genesis _ _ b => b
  | .child _ _ b _ => b

/-- The field `pprev`, null for the first block of a chain. -/
def CBlockIndex.pprev : CBlockIndex → Option CBlockIndex
  | .genesis _ _ _ => none
  | .child _ _ _ p => some p

/-- The accessor `GetBlockTime`: the 32-bit timestamp widened to `int64_t`. -/
def CBlockIndex.GetBlockTime (b : CBlockIndex) : Int := (b.nTime : Int)

/-- Follow `pprev` links `n` times. -/
def CBlockIndex.walk : Nat → CBlockIndex → Option CBlockIndex
  | 0, b => some b
  | n + 1, b =>
    match b.pprev with
    | none => none
    | some p => CBlockIndex.walk n p

/-- Modelled from the spec: `CBlockIndex::GetAncestor` is missing;
`ancestorAtHeight(block, height)` "fails with `HeightOutOfRange` if `height`
is negative or greater than `heightOf(block)`" and otherwise is the block
reached by following parent links down to that height. -/
def CBlockIndex.GetAncestor (b : CBlockIndex) (height : Int) : Option CBlockIndex :=
  if height > b.nHeight ∨ height < 0 then none
  else CBlockIndex.walk (b.nHeight - height).toNat b

/-! ## The functions of `pow.cpp` -/

/-- The function `GetNextWorkRequired` (pow.cpp, lines 15-34). -/
def GetNextWorkRequired (pindexLast : CBlockIndex) (_pblock : CBlockHeader)
    (params : Params) : Nat :=
  let nProofOfWorkLimit := GetCompact (UintToArith256 params.powLimit)
  let lastBlockTime := pindexLast.GetBlockTime
  let prevBlockTime :=
    match pindexLast.pprev with
    | some prev => prev.GetBlockTime
    | none => lastBlockTime
  let actualSpacing := lastBlockTime - prevBlockTime
  if actualSpacing > 180 then nProofOfWorkLimit
  else pindexLast.nBits

/-- The clamp of the observed timespan in `CalculateNextWorkRequired`
(pow.cpp, lines 42-46). -/
def clampTimespan (nActualTimespan nPowTargetTimespan : Int) : Int :=
  let t1 :=
    if nActualTimespan < nPowTargetTimespan.tdiv 4 then nPowTargetTimespan.tdiv 4
    else nActualTimespan
  if t1 > nPowTargetTimespan * 4 then nPowTargetTimespan * 4 else t1

/-- The function `CalculateNextWorkRequired` (pow.cpp, lines 36-68). -/
def CalculateNextWorkRequired (pindexLast : CBlockIndex) (nFirstBlockTime : Int)
    (params : Params) : Option Nat :=
  if params.fPowNoRetargeting then some pindexLast.nBits
  else
    let nActualTimespan :=
      clampTimespan (pindexLast.GetBlockTime - nFirstBlockTime) params.nPowTargetTimespan
    let bnPowLimit := UintToArith256 params.powLimit
    let base : Option Nat :=
      if params.enforce_BIP94 then
        match params.DifficultyAdjustmentInterval with
        | none => none
        | some interval =>
          match pindexLast.GetAncestor (pindexLast.nHeight - (interval - 1)) with
          | none => none
          | some pindexFirst => some (SetCompact pindexFirst.nBits).1
      else some (SetCompact pindexLast.nBits).1
    match base with
    | none => none
    | some bn0 =>
      match mul256 bn0 nActualTimespan with
      | none => none
      | some bnProduct =>
        match div256 bnProduct params.nPowTargetTimespan with
        | none => none
        | some bnNew =>
          some (GetCompact (if bnNew > bnPowLimit then bnPowLimit else bnNew))

/-- The bound computed twice in `PermittedDifficultyTransition` (pow.cpp,
lines 83-93 and 97-107): scale the old target by `timespan`, divide by the
target timespan, cap at `pow_limit`, and pass the result through the codec. -/
def transitionBound (old_nbits : Nat) (timespan nPowTargetTimespan : Int)
    (pow_limit : Nat) : Option Nat :=
  match mul256 (SetCompact old_nbits).1 timespan with
  | none => none
  | some product =>
    match div256 product nPowTargetTimespan with
    | none => none
    | some target =>
      some (SetCompact (GetCompact (if target > pow_limit then pow_limit else target))).1

/-- The function `PermittedDifficultyTransition` (pow.cpp, lines 70-113). -/
def PermittedDifficultyTransition (params : Params) (height : Int)
    (old_nbits new_nbits : Nat) : Option Bool :=
  if params.fPowAllowMinDifficultyBlocks then some true
  else
    match params.DifficultyAdjustmentInterval with
    | none => none
    | some interval =>
      if interval = 0 then none
      else if height.tmod interval = 0 then
        let smallest_timespan := params.nPowTargetTimespan.tdiv 4
        let largest_timespan := params.nPowTargetTimespan * 4
        let pow_limit := UintToArith256 params.powLimit
        let observed_new_target := (SetCompact new_nbits).1
        match transitionBound old_nbits largest_timespan params.nPowTargetTimespan pow_limit with
        | none => none
        | some maximum_new_target =>
          if maximum_new_target < observed_new_target then some false
          else
            match transitionBound old_nbits smallest_timespan params.nPowTargetTimespan
                pow_limit with
            | none => none
            | some minimum_new_target =>
              if minimum_new_target > observed_new_target then some false
              else some true
      else if old_nbits ≠ new_nbits then some false
      else some true

/-- The function `DeriveTarget` (pow.cpp, lines 121-133). -/
def DeriveTarget (nBits : Nat) (pow_limit : uint256) : Option Nat :=
  let r := SetCompact nBits
  let bnTarget := r.1
  let fNegative := r.2.1
  let fOverflow := r.2.2
  if fNegative || decide (bnTarget = 0) || fOverflow ||
      decide (bnTarget > UintToArith256 pow_limit) then none
  else some bnTarget

/-- The function `CheckProofOfWorkImpl` (pow.cpp, lines 135-144). -/
def CheckProofOfWorkImpl (hash : uint256) (nBits : Nat) (params : Params) : Bool :=
  match DeriveTarget nBits params.powLimit with
  | none => false
  | some bnTarget =>
    if UintToArith256 hash > bnTarget then false else true

/-- The function `CheckProofOfWork` (pow.cpp, lines 115-119). The switch
`EnableFuzzDeterminism()` lives outside `pow.cpp` and is passed in as
`fuzzDeterminism`. -/
def CheckProofOfWork (fuzzDeterminism : Bool) (hash : uint256) (nBits : Nat)
    (params : Params) : Bool :=
  if fuzzDeterminism then decide (uint256.data hash 31 / 128 % 2 = 0)
  else CheckProofOfWorkImpl hash nBits params

/-! ## The main-network parameters of `chainparams.cpp` -/

/-- The value `consensus.powLimit` of `CMainParams` (chainparams.cpp, line 63). -/
def mainPowLimit : uint256 :=
  0x00000fffffffffffffffffffffffffffffffffffffffffffffffffffffffffff

/-- The consensus parameters of `CMainParams`. `chainparams.cpp` sets
`powLimit` and `nPowTargetSpacing = 45`; the timespan `2016 * 45` is the one
of the specification's scenario, and no flag is set. -/
def mainParams : Params :=
  { powLimit := mainPowLimit
    nPowTargetTimespan := 2016 * 45
    nPowTargetSpacing := 45
    fPowAllowMinDifficultyBlocks := false
    fPowNoRetargeting := false
    enforce_BIP94 := false }

/-- The two-block chain of the specification's scenario: a first block at
height 0 and a last block at height 1 whose timestamp is 200 seconds later. -/
def scenarioChain : CBlockIndex :=
  .child 1 1691800200 0x1e0ffff0 (.genesis 0 1691800000 0x1e0ffff0)

/-- A header for the block that follows `scenarioChain`. -/
def scenarioHeader : CBlockHeader := { nTime := 1691800245, nBits := 0x1e0ffff0 }

/-- A small test network with `enforce_BIP94` set: a window of two blocks
(`90 / 45`), so that the first block of the window ending at height 1 is the
block at height 0. -/
def bip94Params : Params :=
  { powLimit := mainPowLimit
    nPowTargetTimespan := 90
    nPowTargetSpacing := 45
    fPowAllowMinDifficultyBlocks := false
    fPowNoRetargeting := false
    enforce_BIP94 := true }

/-- The main-network parameters with `fPowNoRetargeting` switched on. -/
def mainParamsNoRetargeting : Params := { mainParams with fPowNoRetargeting := true }

/-- The upper bound of a transition as the specification words it, in exact
natural-number arithmetic: `decode (encode (min (old * (4T) / T) powLimit))`. -/
def specMaximumNewTarget (params : Params) (old_nbits : Nat) : Nat :=
  (SetCompact (GetCompact (min
    ((SetCompact old_nbits).1 * (4 * params.nPowTargetTimespan.toNat) /
      params.nPowTargetTimespan.toNat)
    (UintToArith256 params.powLimit)))).1

/-- The lower bound of a transition as the specification words it, in exact
natural-number arithmetic: `decode (encode (min (old * (T/4) / T) powLimit))`. -/
def specMinimumNewTarget (params : Params) (old_nbits : Nat) : Nat :=
  (SetCompact (GetCompact (min
    ((SetCompact old_nbits).1 * (params.nPowTargetTimespan.toNat / 4) /
      params.nPowTargetTimespan.toNat)
    (UintToArith256 params.powLimit)))).1

/-- The shape of a block-index chain in the data model: the block without a
parent is the genesis block at height 0, and every other block is one higher
than its parent. -/
def CBlockIndex.wellFormed : CBlockIndex → Bool
  | .genesis h _ _ => decide (h = 0)
  | .child h _ _ p => decide (h = p.nHeight + 1) && p.wellFormed

/-- A block whose bits `0x21008000` decode to `2 ^ 255`: multiplied by any
timespan of two seconds or more, this target needs more than 256 bits. -/
def overflowBlock : CBlockIndex := .genesis 0 1691800000 0x21008000

/-! ## Proof-of-work validation -/

theorem deriveTarget_eq_none_iff (nBits : Nat) (pow_limit : uint256) :
    DeriveTarget nBits pow_limit = none ↔
      ((SetCompact nBits).2.1 = true ∨ (SetCompact nBits).2.2 = true ∨
        (SetCompact nBits).1 = 0 ∨ (SetCompact nBits).1 > UintToArith256 pow_limit) := by
  unfold DeriveTarget
  by_cases h1 : (SetCompact nBits).2.1 = true <;>
  by_cases h2 : (SetCompact nBits).2.2 = true <;>
  by_cases h3 : (SetCompact nBits).1 = 0 <;>
  by_cases h4 : (SetCompact nBits).1 > UintToArith256 pow_limit <;>
  simp [h1, h2, h3, h4]

theorem deriveTarget_eq_some_iff (nBits : Nat) (pow_limit : uint256) (t : Nat) :
    DeriveTarget nBits pow_limit = some t ↔
      (t = (SetCompact nBits).1 ∧ (SetCompact nBits).2.1 = false ∧
        (SetCompact nBits).2.2 = false ∧ (SetCompact nBits).1 ≠ 0 ∧
        (SetCompact nBits).1 ≤ UintToArith256 pow_limit) := by
  unfold DeriveTarget
  by_cases h1 : (SetCompact nBits).2.1 = true <;>
  by_cases h2 : (SetCompact nBits).2.2 = true <;>
  by_cases h3 : (SetCompact nBits).1 = 0 <;>
  by_cases h4 : (SetCompact nBits).1 > UintToArith256 pow_limit <;>
  simp [h1, h2, h3, h4, eq_comm]
  omega

theorem checkProofOfWorkImpl_eq_true_iff (hash : uint256) (nBits : Nat) (params : Params) :
    CheckProofOfWorkImpl hash nBits params = true ↔
      ∃ t, DeriveTarget nBits params.powLimit = some t ∧ UintToArith256 hash ≤ t := by
  unfold CheckProofOfWorkImpl
  cases h : DeriveTarget nBits params.powLimit with
  | none => simp
  | some t => simp [Nat.not_lt]

/-- C1: with the test-mode override disabled, `CheckProofOfWork` is true
exactly when `DeriveTarget` returns a target and the hash, read as a 256-bit
unsigned integer, is at most that target; in particular it is false for every
`nBits` that decodes to zero or to a target above `powLimit`. -/
theorem checkProofOfWork_iff_deriveTarget (hash : uint256) (nBits : Nat) (params : Params) :
    (CheckProofOfWork false hash nBits params = true ↔
      ∃ t, DeriveTarget nBits params.powLimit = some t ∧ UintToArith256 hash ≤ t) ∧
    ((SetCompact nBits).1 = 0 ∨ (SetCompact nBits).1 > UintToArith256 params.powLimit →
      CheckProofOfWork false hash nBits params = false) := by
  have key : CheckProofOfWork false hash nBits params = CheckProofOfWorkImpl hash nBits params := by
    simp [CheckProofOfWork]
  refine ⟨by rw [key]; exact checkProofOfWorkImpl_eq_true_iff hash nBits params, ?_⟩
  intro hbad
  have hnone : DeriveTarget nBits params.powLimit = none :=
    (deriveTarget_eq_none_iff nBits params.powLimit).2 (Or.inr (Or.inr hbad))
  rw [key]
  simp [CheckProofOfWorkImpl, hnone]

/-- Witness for C1 on the main network: the compact value `0x1f00ffff` decodes
above `powLimit`, so the all-zero hash is rejected. -/
theorem checkProofOfWork_iff_deriveTarget_witness :
    CheckProofOfWork false 0 0x1f00ffff mainParams = false :=
  (checkProofOfWork_iff_deriveTarget 0 0x1f00ffff mainParams).2 (Or.inr (by decide))

/-- C2: `DeriveTarget` is absent exactly when the decoding of `nBits` is
flagged negative, or flagged overflow, or is zero, or exceeds `pow_limit`; in
every other case it returns exactly the decoded target, which is then
non-zero and at most `pow_limit`. -/
theorem deriveTarget_absent_iff (nBits : Nat) (pow_limit : uint256) :
    (DeriveTarget nBits pow_limit = none ↔
      ((SetCompact nBits).2.1 = true ∨ (SetCompact nBits).2.2 = true ∨
        (SetCompact nBits).1 = 0 ∨ (SetCompact nBits).1 > UintToArith256 pow_limit)) ∧
    (DeriveTarget nBits pow_limit = none ∨
      (DeriveTarget nBits pow_limit = some (SetCompact nBits).1 ∧
        (SetCompact nBits).1 ≠ 0 ∧ (SetCompact nBits).1 ≤ UintToArith256 pow_limit)) := by
  refine ⟨deriveTarget_eq_none_iff nBits pow_limit, ?_⟩
  cases h : DeriveTarget nBits pow_limit with
  | none => exact Or.inl rfl
  | some t =>
    have ht := (deriveTarget_eq_some_iff nBits pow_limit t).1 h
    exact Or.inr ⟨by rw [ht.1], ht.2.2.2.1, ht.2.2.2.2⟩

/-! ## Wide-integer arithmetic -/

theorem mul256_of_fits (a : Nat) (b : Int) (hb : 0 ≤ b) (hfit : a * b.toNat < 2 ^ 256) :
    mul256 a b = some (a * b.toNat) := by
  obtain ⟨n, rfl⟩ := Int.eq_ofNat_of_zero_le hb
  simp only [Int.toNat_ofNat] at hfit ⊢
  unfold mul256
  have h : (a : Int) * (n : Int) = ((a * n : Nat) : Int) := by
    push_cast
    rfl
  rw [h, if_pos ⟨Int.ofNat_nonneg _, by exact_mod_cast hfit⟩, Int.toNat_ofNat]

theorem mul256_of_overflow (a : Nat) (b : Int) (hb : 0 ≤ b)
    (hover : 2 ^ 256 ≤ a * b.toNat) : mul256 a b = none := by
  obtain ⟨n, rfl⟩ := Int.eq_ofNat_of_zero_le hb
  simp only [Int.toNat_ofNat] at hover
  unfold mul256
  have h : (a : Int) * (n : Int) = ((a * n : Nat) : Int) := by
    push_cast
    rfl
  have hnot : ¬ (((a * n : Nat) : Int) < 2 ^ 256) := by
    intro hlt
    have : a * n < 2 ^ 256 := by exact_mod_cast hlt
    omega
  rw [h, if_neg (fun hc => hnot hc.2)]

theorem div256_of_pos (a : Nat) (b : Int) (hb : 0 < b) : div256 a b = some (a / b.toNat) := by
  unfold div256
  rw [if_neg (by omega)]

theorem clampTimespan_eq (x T : Int) (hT : 0 < T) :
    clampTimespan x T = min (max x (T / 4)) (T * 4) := by
  unfold clampTimespan
  rw [Int.tdiv_eq_ediv (le_of_lt hT) (by decide)]
  simp only []
  split_ifs <;> omega

/-! ## The retarget engine -/

/-- C3: with retargeting enabled and a positive target timespan `T`,
`CalculateNextWorkRequired` returns the encoding of
`min (base * ts / T) powLimit`, where `ts` is the observed timespan clamped
into `[T / 4, T * 4]`, the division truncates, and `base` is the decoding of
the bits of `baseBlock`: the last block itself, or under `enforce_BIP94` its
ancestor at height `nHeight - (interval - 1)`. Stated for inputs whose
product `base * ts` fits in 256 bits. -/
theorem calculateNextWorkRequired_retarget (pindexLast baseBlock : CBlockIndex)
    (nFirstBlockTime interval ts : Int) (params : Params)
    (hretarget : params.fPowNoRetargeting = false)
    (hT : 0 < params.nPowTargetTimespan)
    (hbase : if params.enforce_BIP94 = true then
        params.DifficultyAdjustmentInterval = some interval ∧
          pindexLast.GetAncestor (pindexLast.nHeight - (interval - 1)) = some baseBlock
      else baseBlock = pindexLast)
    (hts : ts = min (max (pindexLast.GetBlockTime - nFirstBlockTime)
        (params.nPowTargetTimespan / 4)) (params.nPowTargetTimespan * 4))
    (hfit : (SetCompact baseBlock.nBits).1 * ts.toNat < 2 ^ 256) :
    params.nPowTargetTimespan / 4 ≤ ts ∧ ts ≤ params.nPowTargetTimespan * 4 ∧
    CalculateNextWorkRequired pindexLast nFirstBlockTime params =
      some (GetCompact (min
        ((SetCompact baseBlock.nBits).1 * ts.toNat / params.nPowTargetTimespan.toNat)
        (UintToArith256 params.powLimit))) := by
  have hlo : params.nPowTargetTimespan / 4 ≤ ts := by omega
  have hhi : ts ≤ params.nPowTargetTimespan * 4 := by omega
  refine ⟨hlo, hhi, ?_⟩
  have hnonneg : 0 ≤ ts := by omega
  have hclamp : clampTimespan (pindexLast.GetBlockTime - nFirstBlockTime)
      params.nPowTargetTimespan = ts := by
    rw [clampTimespan_eq _ _ hT, hts]
  have hmin : ∀ a b : Nat, (if a > b then b else a) = min a b := by
    intro a b
    split_ifs <;> omega
  unfold CalculateNextWorkRequired
  rw [if_neg (by simp [hretarget])]
  simp only [hclamp]
  by_cases hb : params.enforce_BIP94 = true
  · rw [if_pos hb] at hbase
    simp only [hb, if_true, hbase.1, hbase.2]
    rw [mul256_of_fits _ _ hnonneg hfit]
    simp only []
    rw [div256_of_pos _ _ hT]
    simp only [hmin]
  · rw [if_neg hb] at hbase
    subst hbase
    have hfalse : params.enforce_BIP94 = false := by simpa using hb
    simp only [hfalse, Bool.false_eq_true, if_false]
    rw [mul256_of_fits _ _ hnonneg hfit]
    simp only []
    rw [div256_of_pos _ _ hT]
    simp only [hmin]

/-- Witness for C3: the scenario chain on the main network, with a window that
started 90000 seconds before the last block, and the same chain under
`enforce_BIP94` with a two-block window, where the base is the block at
height 0. -/
theorem calculateNextWorkRequired_retarget_witness :
    ((90720 : Int) / 4 ≤ 90000 ∧ (90000 : Int) ≤ 90720 * 4 ∧
      CalculateNextWorkRequired scenarioChain 1691710200 mainParams =
        some (GetCompact (min
          ((SetCompact scenarioChain.nBits).1 * (90000 : Int).toNat / (90720 : Int).toNat)
          (UintToArith256 mainParams.powLimit)))) ∧
    ((90 : Int) / 4 ≤ 100 ∧ (100 : Int) ≤ 90 * 4 ∧
      CalculateNextWorkRequired scenarioChain 1691800100 bip94Params =
        some (GetCompact (min
          ((SetCompact (CBlockIndex.genesis 0 1691800000 0x1e0ffff0).nBits).1 *
            (100 : Int).toNat / (90 : Int).toNat)
          (UintToArith256 bip94Params.powLimit)))) :=
  ⟨calculateNextWorkRequired_retarget scenarioChain scenarioChain 1691710200 2016 90000
      mainParams rfl (by decide) rfl (by decide) (by decide),
    calculateNextWorkRequired_retarget scenarioChain (.genesis 0 1691800000 0x1e0ffff0)
      1691800100 2 100 bip94Params rfl (by decide) ⟨by decide, rfl⟩ (by decide)
      (by decide)⟩

/-- C4: with `fPowNoRetargeting` set, `CalculateNextWorkRequired` returns the
bits of the last block unchanged, for every first-block time (also one later
than the last block's time) and whatever `powLimit`, `nPowTargetTimespan` and
`enforce_BIP94` are. -/
theorem calculateNextWorkRequired_noRetargeting (pindexLast : CBlockIndex)
    (nFirstBlockTime : Int) (params : Params) (hflag : params.fPowNoRetargeting = true) :
    CalculateNextWorkRequired pindexLast nFirstBlockTime params = some pindexLast.nBits := by
  unfold CalculateNextWorkRequired
  rw [if_pos hflag]

/-- Witness for C4: a first-block time one hour after the last block's time,
a zero timespan, a zero `powLimit` and `enforce_BIP94` set. -/
theorem calculateNextWorkRequired_noRetargeting_witness :
    CalculateNextWorkRequired scenarioChain (1691800200 + 3600)
      { powLimit := 0, nPowTargetTimespan := 0, nPowTargetSpacing := 0,
        fPowAllowMinDifficultyBlocks := false, fPowNoRetargeting := true,
        enforce_BIP94 := true } = some 0x1e0ffff0 :=
  calculateNextWorkRequired_noRetargeting scenarioChain (1691800200 + 3600) _ rfl

/-- C5: when the last block has a parent and its timestamp is more than 180
seconds after the parent's, `GetNextWorkRequired` returns the encoding of
`powLimit`, whatever the bits of the last block are; on the scenario's
two-block chain with a 200-second gap and the main-network `powLimit` this is
the compact value `0x1e0fffff`. -/
theorem getNextWorkRequired_of_gap (pindexLast prev : CBlockIndex) (pblock : CBlockHeader)
    (params : Params) (hprev : pindexLast.pprev = some prev)
    (hgap : pindexLast.GetBlockTime - prev.GetBlockTime > 180) :
    GetNextWorkRequired pindexLast pblock params = GetCompact (UintToArith256 params.powLimit) ∧
    GetNextWorkRequired scenarioChain scenarioHeader mainParams = 0x1e0fffff := by
  refine ⟨?_, by decide⟩
  unfold GetNextWorkRequired
  simp only [hprev]
  rw [if_pos hgap]

/-- Witness for C5: the scenario chain itself. -/
theorem getNextWorkRequired_of_gap_witness :
    GetNextWorkRequired scenarioChain scenarioHeader mainParams =
      GetCompact (UintToArith256 mainParams.powLimit) ∧
    GetNextWorkRequired scenarioChain scenarioHeader mainParams = 0x1e0fffff :=
  getNextWorkRequired_of_gap scenarioChain (.genesis 0 1691800000 0x1e0ffff0) scenarioHeader
    mainParams rfl (by decide)

/-- C6, as stated, fails: with `fPowNoRetargeting` set, the scenario chain
(gap of 200 seconds, bits `0x1e0ffff0`) still gets the minimum difficulty
`0x1e0fffff`, not the bits of its last block. -/
theorem getNextWorkRequired_noRetargeting_counterexample :
    mainParamsNoRetargeting.fPowNoRetargeting = true ∧
    scenarioChain.nBits = 0x1e0ffff0 ∧
    GetNextWorkRequired scenarioChain scenarioHeader mainParamsNoRetargeting = 0x1e0fffff ∧
    GetNextWorkRequired scenarioChain scenarioHeader mainParamsNoRetargeting ≠
      scenarioChain.nBits := by
  decide

/-- C6, amended: `GetNextWorkRequired` does not consult `fPowNoRetargeting`.
With the flag set it returns the bits of the last block unchanged when the
last block has no parent or the gap to its parent is at most 180 seconds, and
the encoding of `powLimit` when the gap exceeds 180 seconds. -/
theorem getNextWorkRequired_noRetargeting (pindexLast : CBlockIndex) (pblock : CBlockHeader)
    (params : Params) (hflag : params.fPowNoRetargeting = true) :
    ((∀ prev, pindexLast.pprev = some prev →
        pindexLast.GetBlockTime - prev.GetBlockTime ≤ 180) →
      GetNextWorkRequired pindexLast pblock params = pindexLast.nBits) ∧
    (∀ prev, pindexLast.pprev = some prev →
      pindexLast.GetBlockTime - prev.GetBlockTime > 180 →
      GetNextWorkRequired pindexLast pblock params =
        GetCompact (UintToArith256 params.powLimit)) := by
  have _ := hflag
  constructor
  · intro h
    unfold GetNextWorkRequired
    cases hp : pindexLast.pprev with
    | none => simp
    | some prev =>
      have := h prev hp
      simp only []
      rw [if_neg (by omega)]
  · intro prev hp hgap
    unfold GetNextWorkRequired
    simp only [hp]
    rw [if_pos hgap]

/-- Witness for the amended C6: a block 45 seconds after its parent keeps its
bits under `fPowNoRetargeting`. -/
theorem getNextWorkRequired_noRetargeting_witness :
    GetNextWorkRequired (.child 1 1691800045 0x1d00ffff (.genesis 0 1691800000 0x1e0ffff0))
      scenarioHeader mainParamsNoRetargeting = 0x1d00ffff :=
  (getNextWorkRequired_noRetargeting
    (.child 1 1691800045 0x1d00ffff (.genesis 0 1691800000 0x1e0ffff0))
    scenarioHeader mainParamsNoRetargeting rfl).1
    (by
      intro prev h
      cases h
      decide)

/-- C7: when the last block has no parent, or its timestamp is at most 180
seconds after its parent's (zero and negative spacing included),
`GetNextWorkRequired` returns the bits of the last block unchanged. -/
theorem getNextWorkRequired_of_normal_spacing (pindexLast : CBlockIndex)
    (pblock : CBlockHeader) (params : Params)
    (hspacing : ∀ prev, pindexLast.pprev = some prev →
      pindexLast.GetBlockTime - prev.GetBlockTime ≤ 180) :
    GetNextWorkRequired pindexLast pblock params = pindexLast.nBits := by
  unfold GetNextWorkRequired
  cases hp : pindexLast.pprev with
  | none => simp
  | some prev =>
    have := hspacing prev hp
    simp only []
    rw [if_neg (by omega)]

/-- Witness for C7: a last block whose timestamp is 100 seconds before its
parent's (negative spacing), and a last block without a parent. -/
theorem getNextWorkRequired_of_normal_spacing_witness :
    GetNextWorkRequired (.child 1 1691799900 0x1d00ffff (.genesis 0 1691800000 0x1e0ffff0))
      scenarioHeader mainParams = 0x1d00ffff ∧
    GetNextWorkRequired (.genesis 0 1691800000 0x1e0ffff0) scenarioHeader mainParams =
      0x1e0ffff0 :=
  ⟨getNextWorkRequired_of_normal_spacing
      (.child 1 1691799900 0x1d00ffff (.genesis 0 1691800000 0x1e0ffff0))
      scenarioHeader mainParams
      (by
        intro prev h
        cases h
        decide),
    getNextWorkRequired_of_normal_spacing (.genesis 0 1691800000 0x1e0ffff0)
      scenarioHeader mainParams
      (by
        intro prev h
        cases h)⟩

/-! ## Permitted difficulty transitions -/

/-- C8: with `fPowAllowMinDifficultyBlocks` off and a non-zero adjustment
interval, at a height that is not a multiple of the interval
`PermittedDifficultyTransition` returns true exactly when `new_nbits` and
`old_nbits` are the same 32-bit value. -/
theorem permittedDifficultyTransition_off_boundary (params : Params) (height interval : Int)
    (old_nbits new_nbits : Nat)
    (hallow : params.fPowAllowMinDifficultyBlocks = false)
    (hinterval : params.DifficultyAdjustmentInterval = some interval)
    (hnonzero : interval ≠ 0)
    (hheight : ¬ interval ∣ height) :
    PermittedDifficultyTransition params height old_nbits new_nbits =
        some (decide (new_nbits = old_nbits)) ∧
    (PermittedDifficultyTransition params height old_nbits new_nbits = some true ↔
      new_nbits = old_nbits) := by
  have hmod : ¬ height.tmod interval = 0 := fun h => hheight (Int.dvd_of_tmod_eq_zero h)
  have hval : PermittedDifficultyTransition params height old_nbits new_nbits =
      some (decide (new_nbits = old_nbits)) := by
    unfold PermittedDifficultyTransition
    simp only [hallow, hinterval, Bool.false_eq_true, if_false]
    rw [if_neg hnonzero, if_neg hmod]
    by_cases h : old_nbits = new_nbits
    · simp [h]
    · have h2 : ¬ new_nbits = old_nbits := fun e => h e.symm
      simp [h, h2]
  refine ⟨hval, ?_⟩
  rw [hval]
  simp

/-- Witness for C8: height 2017 on the main network (interval 2016), with two
compact values that decode to the same target but differ as 32-bit values. -/
theorem permittedDifficultyTransition_off_boundary_witness :
    PermittedDifficultyTransition mainParams 2017 0x1e0ffff0 0x1e8ffff0 =
        some (decide (0x1e8ffff0 = 0x1e0ffff0)) ∧
    (PermittedDifficultyTransition mainParams 2017 0x1e0ffff0 0x1e8ffff0 = some true ↔
      0x1e8ffff0 = 0x1e0ffff0) :=
  permittedDifficultyTransition_off_boundary mainParams 2017 2016 0x1e0ffff0 0x1e8ffff0
    rfl (by decide) (by decide) (by decide)

/-! ## The compact codec -/

theorem bitsAux_zero (k : Nat) : bitsAux k 0 = 0 := by
  induction k with
  | zero => rfl
  | succ k ih =>
    have hpos : ¬ 2 ^ k ≤ 0 := by
      have := Nat.two_pow_pos k
      omega
    simp only [bitsAux]
    rw [if_neg hpos, ih]

theorem bitsAux_spec (k t : Nat) (hlt : t < 2 ^ k) (hpos : 0 < t) :
    0 < bitsAux k t ∧ 2 ^ (bitsAux k t - 1) ≤ t ∧ t < 2 ^ bitsAux k t := by
  induction k with
  | zero =>
    simp at hlt
    omega
  | succ k ih =>
    simp only [bitsAux]
    by_cases h : 2 ^ k ≤ t
    · rw [if_pos h]
      exact ⟨Nat.succ_pos k, by simpa using h, hlt⟩
    · rw [if_neg h]
      exact ih (by omega)

theorem pow256_eq (k : Nat) : 2 ^ (8 * k) = 256 ^ k := by
  rw [pow_mul]
  norm_num

/-- The byte length used by `GetCompact` brackets the value between two
consecutive powers of 256. -/
theorem nSize_bounds (t : Nat) (hlt : t < 2 ^ 256) (hpos : 0 < t) :
    1 ≤ (bits t + 7) / 8 ∧ (bits t + 7) / 8 ≤ 32 ∧
    256 ^ ((bits t + 7) / 8 - 1) ≤ t ∧ t < 256 ^ ((bits t + 7) / 8) := by
  obtain ⟨h0, h1, h2⟩ := bitsAux_spec 256 t hlt hpos
  have hle : bits t ≤ 256 := by
    by_contra hc
    have : 2 ^ 256 ≤ 2 ^ (bitsAux 256 t - 1) :=
      Nat.pow_le_pow_right (by decide) (by unfold bits at hc; omega)
    omega
  unfold bits at hle ⊢
  refine ⟨by omega, by omega, ?_, ?_⟩
  · rw [← pow256_eq]
    exact le_trans (Nat.pow_le_pow_right (by decide) (by omega)) h1
  · rw [← pow256_eq]
    exact lt_of_lt_of_le h2 (Nat.pow_le_pow_right (by decide) (by omega))

/-- Decoding a compact value whose mantissa `c` is below the sign bit. -/
theorem setCompact_normal (c n : Nat) (hc : c < 2 ^ 23) :
    SetCompact (c + n * 2 ^ 24) =
      (if n ≤ 3 then c / 256 ^ (3 - n) else c * 256 ^ (n - 3) % 2 ^ 256,
        false,
        decide (c ≠ 0) && (decide (n > 34) || decide (2 ^ 256 ≤ c * 256 ^ (n - 3)))) := by
  have h1 : (c + n * 2 ^ 24) / 2 ^ 24 = n := by omega
  have h2 : (c + n * 2 ^ 24) % 2 ^ 23 = c := by omega
  have h3 : (c + n * 2 ^ 24) / 2 ^ 23 % 2 = 0 := by omega
  unfold SetCompact
  simp only [h1, h2, h3, pow256_eq]
  simp

theorem setCompact_normal_small (c n : Nat) (hc : c < 2 ^ 23) (hn : n ≤ 3) :
    SetCompact (c + n * 2 ^ 24) = (c / 256 ^ (3 - n), false, false) := by
  rw [setCompact_normal c n hc, if_pos hn]
  have h0 : n - 3 = 0 := by omega
  have h1 : ¬ n > 34 := by omega
  have h2 : ¬ 2 ^ 256 ≤ c := by
    have : (2 : Nat) ^ 23 ≤ 2 ^ 256 := Nat.pow_le_pow_right (by decide) (by decide)
    omega
  rw [h0, pow_zero, mul_one, decide_eq_false h1, decide_eq_false h2]
  simp

theorem setCompact_normal_large (c n : Nat) (hc : c < 2 ^ 23) (hn : 3 < n) (hn34 : n ≤ 34)
    (hfit : c * 256 ^ (n - 3) < 2 ^ 256) :
    SetCompact (c + n * 2 ^ 24) = (c * 256 ^ (n - 3), false, false) := by
  rw [setCompact_normal c n hc, if_neg (by omega), Nat.mod_eq_of_lt hfit]
  have h1 : ¬ n > 34 := by omega
  have h2 : ¬ 2 ^ 256 ≤ c * 256 ^ (n - 3) := by omega
  rw [decide_eq_false h1, decide_eq_false h2]
  simp

theorem getCompact_eq (t n : Nat) (hn : (bits t + 7) / 8 = n) :
    GetCompact t =
      if (if n ≤ 3 then t * 2 ^ (8 * (3 - n)) else t / 2 ^ (8 * (n - 3))) / 2 ^ 23 % 2 = 1 then
        (if n ≤ 3 then t * 2 ^ (8 * (3 - n)) else t / 2 ^ (8 * (n - 3))) / 2 ^ 8 +
          (n + 1) * 2 ^ 24
      else (if n ≤ 3 then t * 2 ^ (8 * (3 - n)) else t / 2 ^ (8 * (n - 3))) + n * 2 ^ 24 := by
  unfold GetCompact
  simp only [hn]

/-- Decoding what `GetCompact` produced rounds the target down to a multiple
of `256 ^ j`, where `j` is the least number of low bytes to drop so that the
rest fits in the 23-bit mantissa; neither flag is raised. -/
theorem setCompact_getCompact (t : Nat) (hlt : t < 2 ^ 256) :
    ∃ j, SetCompact (GetCompact t) = (t / 256 ^ j * 256 ^ j, false, false) ∧
      t / 256 ^ j < 2 ^ 23 ∧ (j = 0 ∨ 2 ^ 23 * 256 ^ (j - 1) ≤ t) := by
  rcases Nat.eq_zero_or_pos t with h0 | hpos
  · subst h0
    have hG : GetCompact 0 = 0 := by
      simp [GetCompact, bits, bitsAux_zero]
    rw [hG]
    exact ⟨0, by simp [SetCompact], by decide, Or.inl rfl⟩
  obtain ⟨hn1, hn32, hlo, hhi⟩ := nSize_bounds t hlt hpos
  generalize hn : (bits t + 7) / 8 = n at hn1 hn32 hlo hhi
  rw [getCompact_eq t n hn]
  by_cases hsmall : n ≤ 3
  · simp only [if_pos hsmall]
    have hn' : n = 1 ∨ n = 2 ∨ n = 3 := by omega
    rcases hn' with rfl | rfl | rfl
    · norm_num at hlo hhi ⊢
      by_cases hs : t * 65536 / 8388608 % 2 = 1
      · rw [if_pos hs]
        have e : t * 65536 / 256 + 33554432 = t * 256 + 2 * 2 ^ 24 := by omega
        rw [e, setCompact_normal_small _ _ (by omega) (by omega)]
        exact ⟨0, by simp, by simp; omega, Or.inl rfl⟩
      · rw [if_neg hs]
        have e : t * 65536 + 16777216 = t * 65536 + 1 * 2 ^ 24 := by omega
        rw [e, setCompact_normal_small _ _ (by omega) (by omega)]
        refine ⟨0, ?_, by simp; omega, Or.inl rfl⟩
        simp only [Prod.mk.injEq, and_true]
        norm_num
    · norm_num at hlo hhi ⊢
      by_cases hs : t * 256 / 8388608 % 2 = 1
      · rw [if_pos hs]
        have e : t + 50331648 = t + 3 * 2 ^ 24 := by omega
        rw [e, setCompact_normal_small _ _ (by omega) (by omega)]
        exact ⟨0, by simp, by simp; omega, Or.inl rfl⟩
      · rw [if_neg hs]
        have e : t * 256 + 33554432 = t * 256 + 2 * 2 ^ 24 := by omega
        rw [e, setCompact_normal_small _ _ (by omega) (by omega)]
        exact ⟨0, by simp, by simp; omega, Or.inl rfl⟩
    · norm_num at hlo hhi ⊢
      by_cases hs : t / 8388608 % 2 = 1
      · rw [if_pos hs]
        have e : t / 256 + 67108864 = t / 256 + 4 * 2 ^ 24 := by omega
        rw [e, setCompact_normal_large _ _ (by omega) (by omega) (by omega)
          (by norm_num; omega)]
        exact ⟨1, by simp, by simp; omega, Or.inr (by simp; omega)⟩
      · rw [if_neg hs]
        have e : t + 50331648 = t + 3 * 2 ^ 24 := by omega
        rw [e, setCompact_normal_small _ _ (by omega) (by omega)]
        exact ⟨0, by simp, by simp; omega, Or.inl rfl⟩
  · simp only [if_neg hsmall]
    obtain ⟨k, rfl⟩ : ∃ k, n = k + 4 := ⟨n - 4, by omega⟩
    have hk3 : k + 4 - 3 = k + 1 := by omega
    have hk1 : k + 4 - 1 = k + 3 := by omega
    rw [hk3, pow256_eq]
    rw [hk1] at hlo
    have hQ : 0 < 256 ^ (k + 1) := pow_pos (by decide) _
    have hc_hi : t / 256 ^ (k + 1) < 2 ^ 24 := by
      rw [Nat.div_lt_iff_lt_mul hQ]
      calc t < 256 ^ (k + 4) := hhi
        _ = 2 ^ 24 * 256 ^ (k + 1) := by ring
    have hc_lo : 2 ^ 16 ≤ t / 256 ^ (k + 1) := by
      rw [Nat.le_div_iff_mul_le hQ]
      calc 2 ^ 16 * 256 ^ (k + 1) = 256 ^ (k + 3) := by ring
        _ ≤ t := hlo
    have hfloor : t / 256 ^ (k + 1) * 256 ^ (k + 1) ≤ t := Nat.div_mul_le_self t _
    by_cases hs : t / 256 ^ (k + 1) / 2 ^ 23 % 2 = 1
    · rw [if_pos hs]
      have hdd : t / 256 ^ (k + 1) / 2 ^ 8 = t / 256 ^ (k + 2) := by
        rw [Nat.div_div_eq_div_mul]
        congr 1
      have hfloor2 : t / 256 ^ (k + 2) * 256 ^ (k + 2) ≤ t := Nat.div_mul_le_self t _
      have hsmall2 : t / 256 ^ (k + 2) < 2 ^ 23 := by
        rw [← hdd]
        omega
      rw [hdd, setCompact_normal_large _ _ hsmall2 (by omega) (by omega)
        (by
          have : k + 4 + 1 - 3 = k + 2 := by omega
          rw [this]
          omega)]
      have hk2 : k + 4 + 1 - 3 = k + 2 := by omega
      refine ⟨k + 2, by rw [hk2], hsmall2, Or.inr ?_⟩
      have hk21 : k + 2 - 1 = k + 1 := by omega
      rw [hk21]
      have : 2 ^ 23 ≤ t / 256 ^ (k + 1) := by omega
      calc 2 ^ 23 * 256 ^ (k + 1) ≤ t / 256 ^ (k + 1) * 256 ^ (k + 1) :=
            Nat.mul_le_mul_right _ this
        _ ≤ t := hfloor
    · rw [if_neg hs]
      have hsmall1 : t / 256 ^ (k + 1) < 2 ^ 23 := by omega
      rw [setCompact_normal_large _ _ hsmall1 (by omega) (by omega)
        (by rw [hk3]; omega)]
      refine ⟨k + 1, by rw [hk3], hsmall1, Or.inr ?_⟩
      have hk11 : k + 1 - 1 = k := by omega
      rw [hk11]
      calc 2 ^ 23 * 256 ^ k ≤ 256 ^ (k + 3) := by
            have : 256 ^ (k + 3) = 2 ^ 24 * 256 ^ k := by ring
            rw [this]
            exact Nat.mul_le_mul_right _ (by decide)
        _ ≤ t := hlo

theorem setCompact_getCompact_le (t : Nat) (hlt : t < 2 ^ 256) :
    (SetCompact (GetCompact t)).1 ≤ t := by
  obtain ⟨j, hj, _, _⟩ := setCompact_getCompact t hlt
  rw [hj]
  exact Nat.div_mul_le_self t _

/-- Every decoded target is a mantissa below `2 ^ 23` times a power of 256. -/
theorem setCompact_representable (nCompact : Nat) :
    ∃ w k, (SetCompact nCompact).1 = w * 256 ^ k ∧ w < 2 ^ 23 := by
  have hw : nCompact % 2 ^ 23 < 2 ^ 23 := Nat.mod_lt _ (by decide)
  unfold SetCompact
  simp only []
  by_cases hsmall : nCompact / 2 ^ 24 ≤ 3
  · rw [if_pos hsmall]
    exact ⟨_, 0, (by rw [pow_zero, mul_one]), lt_of_le_of_lt (Nat.div_le_self _ _) hw⟩
  · rw [if_neg hsmall, pow256_eq]
    generalize nCompact / 2 ^ 24 - 3 = k
    generalize nCompact % 2 ^ 23 = w at hw
    by_cases hk : k ≤ 32
    · have hsplit : 2 ^ 256 = 256 ^ (32 - k) * 256 ^ k := by
        rw [← pow_add, ← pow256_eq]
        congr 1
        omega
      rw [hsplit, Nat.mul_mod_mul_right]
      exact ⟨_, k, rfl, lt_of_le_of_lt (Nat.mod_le _ _) hw⟩
    · have hsplit : 256 ^ k = 256 ^ (k - 32) * 2 ^ 256 := by
        have h256 : (2 : Nat) ^ 256 = 256 ^ 32 := by norm_num
        rw [h256, ← pow_add]
        congr 1
        omega
      rw [hsplit, ← Nat.mul_assoc, Nat.mul_mod_left]
      exact ⟨0, 0, by simp, by decide⟩

/-- A representable value below `m` stays below `m` rounded down to a multiple
of `256 ^ j`, when `j` drops no more bytes than the mantissa of `m` requires. -/
theorem le_round_of_representable (w k m j : Nat) (hw : w < 2 ^ 23)
    (hle : w * 256 ^ k ≤ m) (hj : j = 0 ∨ 2 ^ 23 * 256 ^ (j - 1) ≤ m) :
    w * 256 ^ k ≤ m / 256 ^ j * 256 ^ j := by
  rcases Nat.eq_zero_or_pos j with rfl | hjpos
  · simpa using hle
  obtain ⟨i, rfl⟩ : ∃ i, j = i + 1 := ⟨j - 1, by omega⟩
  have hB : 2 ^ 23 * 256 ^ i ≤ m := by
    rcases hj with h | h
    · omega
    · simpa using h
  have hQ : 0 < 256 ^ (i + 1) := pow_pos (by decide) _
  by_cases hk : i + 1 ≤ k
  · have hsplit : w * 256 ^ k = w * 256 ^ (k - (i + 1)) * 256 ^ (i + 1) := by
      rw [Nat.mul_assoc, ← pow_add]
      congr 2
      omega
    rw [hsplit] at hle ⊢
    exact Nat.mul_le_mul_right _ ((Nat.le_div_iff_mul_le hQ).2 hle)
  · have h1 : w * 256 ^ k ≤ 2 ^ 23 * 256 ^ i :=
      Nat.mul_le_mul (le_of_lt hw) (Nat.pow_le_pow_right (by decide) (by omega))
    have h2 : 2 ^ 23 * 256 ^ i = 2 ^ 15 * 256 ^ (i + 1) := by ring
    have h3 : 2 ^ 15 ≤ m / 256 ^ (i + 1) := by
      rw [Nat.le_div_iff_mul_le hQ, ← h2]
      exact hB
    calc w * 256 ^ k ≤ 2 ^ 15 * 256 ^ (i + 1) := by rw [← h2]; exact h1
      _ ≤ m / 256 ^ (i + 1) * 256 ^ (i + 1) := Nat.mul_le_mul_right _ h3

/-- A decoded target that is at most `m` is still at most `m` after `m` went
through the codec. -/
theorem setCompact_le_setCompact_getCompact (nCompact m : Nat) (hm : m < 2 ^ 256)
    (hle : (SetCompact nCompact).1 ≤ m) :
    (SetCompact nCompact).1 ≤ (SetCompact (GetCompact m)).1 := by
  obtain ⟨w, k, hwk, hw⟩ := setCompact_representable nCompact
  obtain ⟨j, hj, _, hjm⟩ := setCompact_getCompact m hm
  rw [hj, hwk]
  rw [hwk] at hle
  exact le_round_of_representable w k m j hw hle hjm

/-! ## Window boundaries -/

theorem transitionBound_of_fits (old_nbits : Nat) (timespan T : Int) (pow_limit : Nat)
    (hT : 0 < T) (hts : 0 ≤ timespan)
    (hfit : (SetCompact old_nbits).1 * timespan.toNat < 2 ^ 256) :
    transitionBound old_nbits timespan T pow_limit =
      some (SetCompact (GetCompact (min
        ((SetCompact old_nbits).1 * timespan.toNat / T.toNat) pow_limit))).1 := by
  unfold transitionBound
  rw [mul256_of_fits _ _ hts hfit]
  simp only []
  rw [div256_of_pos _ _ hT]
  simp only []
  congr 4
  split_ifs <;> omega

theorem transitionBound_of_overflow (old_nbits : Nat) (timespan T : Int) (pow_limit : Nat)
    (hts : 0 ≤ timespan)
    (hover : 2 ^ 256 ≤ (SetCompact old_nbits).1 * timespan.toNat) :
    transitionBound old_nbits timespan T pow_limit = none := by
  unfold transitionBound
  rw [mul256_of_overflow _ _ hts hover]

theorem toNat_mul_four (T : Int) (hT : 0 < T) : (T * 4).toNat = 4 * T.toNat := by
  omega

theorem toNat_tdiv_four (T : Int) (hT : 0 < T) : (T.tdiv 4).toNat = T.toNat / 4 := by
  rw [Int.tdiv_eq_ediv (le_of_lt hT) (by decide)]
  omega

/-- At a window boundary, when the product fits in 256 bits, the function
is the two-sided comparison with the specification's bounds. -/
theorem permittedDifficultyTransition_boundary_eq (params : Params) (height interval : Int)
    (old_nbits new_nbits : Nat)
    (hallow : params.fPowAllowMinDifficultyBlocks = false)
    (hT : 0 < params.nPowTargetTimespan)
    (hinterval : params.DifficultyAdjustmentInterval = some interval)
    (hnonzero : interval ≠ 0)
    (hheight : interval ∣ height)
    (hfit : (SetCompact old_nbits).1 * (4 * params.nPowTargetTimespan.toNat) < 2 ^ 256) :
    PermittedDifficultyTransition params height old_nbits new_nbits =
      some (decide (specMinimumNewTarget params old_nbits ≤ (SetCompact new_nbits).1 ∧
        (SetCompact new_nbits).1 ≤ specMaximumNewTarget params old_nbits)) := by
  have hmod : height.tmod interval = 0 := Int.tmod_eq_zero_of_dvd hheight
  have hfit4 : (SetCompact old_nbits).1 * (params.nPowTargetTimespan * 4).toNat < 2 ^ 256 := by
    rw [toNat_mul_four _ hT]
    exact hfit
  have hfitq : (SetCompact old_nbits).1 * (params.nPowTargetTimespan.tdiv 4).toNat
      < 2 ^ 256 := by
    rw [toNat_tdiv_four _ hT]
    refine lt_of_le_of_lt (Nat.mul_le_mul_left _ ?_) hfit
    omega
  have hq0 : 0 ≤ params.nPowTargetTimespan.tdiv 4 := by
    rw [Int.tdiv_eq_ediv (le_of_lt hT) (by decide)]
    omega
  unfold PermittedDifficultyTransition
  simp only [hallow, hinterval, Bool.false_eq_true, if_false]
  rw [if_neg hnonzero, if_pos hmod]
  rw [transitionBound_of_fits _ _ _ _ hT (by omega) hfit4,
    transitionBound_of_fits _ _ _ _ hT hq0 hfitq, toNat_mul_four _ hT, toNat_tdiv_four _ hT]
  simp only [specMinimumNewTarget, specMaximumNewTarget]
  split_ifs with h1 h2 <;> simp <;> omega



theorem setCompact_lt (nCompact : Nat) : (SetCompact nCompact).1 < 2 ^ 256 := by
  unfold SetCompact
  simp only []
  split_ifs with h
  · have h1 : nCompact % 2 ^ 23 < 2 ^ 23 := Nat.mod_lt _ (by decide)
    have h2 : (2 : Nat) ^ 23 ≤ 2 ^ 256 := Nat.pow_le_pow_right (by decide) (by decide)
    exact lt_of_le_of_lt (Nat.div_le_self _ _) (lt_of_lt_of_le h1 h2)
  · exact Nat.mod_lt _ (by decide)

/-- The specification's lower bound never exceeds the old target. -/
theorem specMinimumNewTarget_le (params : Params) (old_nbits : Nat) :
    specMinimumNewTarget params old_nbits ≤ (SetCompact old_nbits).1 := by
  unfold specMinimumNewTarget
  have hD := setCompact_lt old_nbits
  generalize (SetCompact old_nbits).1 = D at hD ⊢
  generalize params.nPowTargetTimespan.toNat = T
  have h1 : D * (T / 4) / T ≤ D := by
    apply Nat.div_le_of_le_mul
    rw [Nat.mul_comm T D]
    exact Nat.mul_le_mul_left D (Nat.div_le_self T 4)
  have h2 : min (D * (T / 4) / T) (UintToArith256 params.powLimit) ≤ D :=
    le_trans (Nat.min_le_left _ _) h1
  exact le_trans (setCompact_getCompact_le _ (lt_of_le_of_lt h2 hD)) h2

/-- The specification's upper bound is at least the old target when that
target respects `powLimit` and its product with `4T` fits in 256 bits. -/
theorem le_specMaximumNewTarget (params : Params) (old_nbits : Nat)
    (hT : 0 < params.nPowTargetTimespan)
    (hle : (SetCompact old_nbits).1 ≤ UintToArith256 params.powLimit)
    (hfit : (SetCompact old_nbits).1 * (4 * params.nPowTargetTimespan.toNat) < 2 ^ 256) :
    (SetCompact old_nbits).1 ≤ specMaximumNewTarget params old_nbits := by
  unfold specMaximumNewTarget
  have hTpos : 0 < params.nPowTargetTimespan.toNat := by omega
  generalize params.nPowTargetTimespan.toNat = T at hfit hTpos
  apply setCompact_le_setCompact_getCompact
  · refine lt_of_le_of_lt (Nat.min_le_left _ _) ?_
    exact lt_of_le_of_lt (Nat.div_le_self _ _) hfit
  · refine Nat.le_min.2 ⟨?_, hle⟩
    rw [Nat.le_div_iff_mul_le hTpos]
    exact Nat.mul_le_mul_left _ (by omega)

set_option maxRecDepth 100000 in
/-- C9, as stated, fails when the product needs more than 256 bits: on the
main network at height 4032, the old bits `0x21008000` decode to `2 ^ 255`,
whose product with `4T = 362880` is beyond `2 ^ 256`. The new bits
`0x1e0fffff` lie within the bounds computed in exact arithmetic, yet the
function does not return true: it stops at the multiplication. -/
theorem permittedDifficultyTransition_at_boundary_counterexample :
    mainParams.fPowAllowMinDifficultyBlocks = false ∧
    0 < mainParams.nPowTargetTimespan ∧
    mainParams.DifficultyAdjustmentInterval = some 2016 ∧
    (2016 : Int) ∣ 4032 ∧
    (specMinimumNewTarget mainParams 0x21008000 ≤ (SetCompact 0x1e0fffff).1 ∧
      (SetCompact 0x1e0fffff).1 ≤ specMaximumNewTarget mainParams 0x21008000) ∧
    2 ^ 256 ≤ (SetCompact 0x21008000).1 * (4 * mainParams.nPowTargetTimespan.toNat) ∧
    PermittedDifficultyTransition mainParams 4032 0x21008000 0x1e0fffff ≠ some true ∧
    PermittedDifficultyTransition mainParams 4032 0x21008000 0x1e0fffff = none := by
  decide

/-- C9, amended: with `fPowAllowMinDifficultyBlocks` off, a positive target
timespan `T`, a non-zero adjustment interval, a height that is a multiple of
it, and an old target whose product with `4T` fits in 256 bits,
`PermittedDifficultyTransition` returns true exactly when
`minimum_new_target ≤ decode new_nbits ≤ maximum_new_target`, both bounds
inclusive, with the bounds `decode (encode (min (old * (T/4) / T) powLimit))`
and `decode (encode (min (old * (4T) / T) powLimit))`. -/
theorem permittedDifficultyTransition_at_boundary (params : Params) (height interval : Int)
    (old_nbits new_nbits : Nat)
    (hallow : params.fPowAllowMinDifficultyBlocks = false)
    (hT : 0 < params.nPowTargetTimespan)
    (hinterval : params.DifficultyAdjustmentInterval = some interval)
    (hnonzero : interval ≠ 0)
    (hheight : interval ∣ height)
    (hfit : (SetCompact old_nbits).1 * (4 * params.nPowTargetTimespan.toNat) < 2 ^ 256) :
    PermittedDifficultyTransition params height old_nbits new_nbits =
      some (decide (specMinimumNewTarget params old_nbits ≤ (SetCompact new_nbits).1 ∧
        (SetCompact new_nbits).1 ≤ specMaximumNewTarget params old_nbits)) ∧
    (PermittedDifficultyTransition params height old_nbits new_nbits = some true ↔
      (specMinimumNewTarget params old_nbits ≤ (SetCompact new_nbits).1 ∧
        (SetCompact new_nbits).1 ≤ specMaximumNewTarget params old_nbits)) := by
  have hval := permittedDifficultyTransition_boundary_eq params height interval old_nbits
    new_nbits hallow hT hinterval hnonzero hheight hfit
  refine ⟨hval, ?_⟩
  rw [hval]
  simp

set_option maxRecDepth 100000 in
/-- Witness for the amended C9: on the main network at height 2016, the
transition from the genesis bits `0x1e0ffff0` to `0x1e03fffc`, a quarter of
the old target, is at the lower bound and permitted. -/
theorem permittedDifficultyTransition_at_boundary_witness :
    PermittedDifficultyTransition mainParams 2016 0x1e0ffff0 0x1e03fffc = some true :=
  ((permittedDifficultyTransition_at_boundary mainParams 2016 2016 0x1e0ffff0 0x1e03fffc
    rfl (by decide) (by decide) (by decide) (by decide) (by decide)).2).2 (by decide)

set_option maxRecDepth 100000 in
/-- C10, as stated, fails for bits that decode above `powLimit`: on the main
network at height 2016 the bits `0x1e200000` decode to `2 ^ 237`, the upper
bound is capped at `powLimit`, and the transition to the identical bits is
rejected (every product fits in 256 bits here). -/
theorem permittedDifficultyTransition_same_bits_counterexample :
    (2016 : Int) ∣ 2016 ∧
    mainParams.DifficultyAdjustmentInterval = some 2016 ∧
    (SetCompact 0x1e200000).1 * (4 * mainParams.nPowTargetTimespan.toNat) < 2 ^ 256 ∧
    PermittedDifficultyTransition mainParams 2016 0x1e200000 0x1e200000 = some false := by
  decide

/-- C10, amended: for a positive target timespan `T`, a non-zero adjustment
interval and a height that is a multiple of it, the transition from `nbits`
to the identical `nbits` is permitted whenever the decoded target is at most
`powLimit` and its product with `4T` fits in 256 bits. -/
theorem permittedDifficultyTransition_same_bits (params : Params) (height interval : Int)
    (nbits : Nat)
    (hT : 0 < params.nPowTargetTimespan)
    (hinterval : params.DifficultyAdjustmentInterval = some interval)
    (hnonzero : interval ≠ 0)
    (hheight : interval ∣ height)
    (hle : (SetCompact nbits).1 ≤ UintToArith256 params.powLimit)
    (hfit : (SetCompact nbits).1 * (4 * params.nPowTargetTimespan.toNat) < 2 ^ 256) :
    PermittedDifficultyTransition params height nbits nbits = some true := by
  by_cases hallow : params.fPowAllowMinDifficultyBlocks = true
  · unfold PermittedDifficultyTransition
    rw [if_pos hallow]
  have hallow2 : params.fPowAllowMinDifficultyBlocks = false := by simpa using hallow
  rw [permittedDifficultyTransition_boundary_eq params height interval nbits nbits hallow2 hT
    hinterval hnonzero hheight hfit]
  have hmin := specMinimumNewTarget_le params nbits
  have hmax := le_specMaximumNewTarget params nbits hT hle hfit
  simp [hmin, hmax]

set_option maxRecDepth 100000 in
/-- Witness for the amended C10: the genesis bits `0x1e0ffff0` on the main
network at height 2016. -/
theorem permittedDifficultyTransition_same_bits_witness :
    PermittedDifficultyTransition mainParams 2016 0x1e0ffff0 0x1e0ffff0 = some true :=
  permittedDifficultyTransition_same_bits mainParams 2016 2016 0x1e0ffff0
    (by decide) (by decide) (by decide) (by decide) (by decide) (by decide)

/-! ## The fourfold limit -/

theorem permittedDifficultyTransition_boundary_overflow (params : Params)
    (height interval : Int) (old_nbits new_nbits : Nat)
    (hallow : params.fPowAllowMinDifficultyBlocks = false)
    (hT : 0 < params.nPowTargetTimespan)
    (hinterval : params.DifficultyAdjustmentInterval = some interval)
    (hnonzero : interval ≠ 0)
    (hheight : interval ∣ height)
    (hover : 2 ^ 256 ≤ (SetCompact old_nbits).1 * (4 * params.nPowTargetTimespan.toNat)) :
    PermittedDifficultyTransition params height old_nbits new_nbits = none := by
  have hmod : height.tmod interval = 0 := Int.tmod_eq_zero_of_dvd hheight
  have hover4 : 2 ^ 256 ≤ (SetCompact old_nbits).1 * (params.nPowTargetTimespan * 4).toNat := by
    rw [toNat_mul_four _ hT]
    exact hover
  unfold PermittedDifficultyTransition
  simp only [hallow, hinterval, Bool.false_eq_true, if_false]
  rw [if_neg hnonzero, if_pos hmod, transitionBound_of_overflow _ _ _ _ (by omega) hover4]

/-- C12: with `fPowAllowMinDifficultyBlocks` set, every transition is
permitted, at every height and for all bits; the adjustment interval is not
even computed, so the answer is there for a zero spacing too. -/
theorem permittedDifficultyTransition_allowMinDifficulty (params : Params) (height : Int)
    (old_nbits new_nbits : Nat) (hallow : params.fPowAllowMinDifficultyBlocks = true) :
    PermittedDifficultyTransition params height old_nbits new_nbits = some true := by
  unfold PermittedDifficultyTransition
  rw [if_pos hallow]

/-- Witness for C12: a zero spacing and a zero timespan, at height 7, between
two unrelated compact values. -/
theorem permittedDifficultyTransition_allowMinDifficulty_witness :
    PermittedDifficultyTransition
      { powLimit := mainPowLimit, nPowTargetTimespan := 0, nPowTargetSpacing := 0,
        fPowAllowMinDifficultyBlocks := true, fPowNoRetargeting := false,
        enforce_BIP94 := false } 7 0x1d00ffff 0x207fffff = some true :=
  permittedDifficultyTransition_allowMinDifficulty _ 7 0x1d00ffff 0x207fffff rfl

/-- C13: a compact value with the sign bit `0x00800000` set is never a
target: `DeriveTarget` is absent for every `pow_limit`, and `CheckProofOfWork`
with the override off is false for every hash. A zero mantissa is included:
the decoding is then zero. -/
theorem deriveTarget_of_sign_bit (nBits : Nat) (pow_limit : uint256) (hash : uint256)
    (params : Params) (hsign : nBits.testBit 23 = true) :
    DeriveTarget nBits pow_limit = none ∧
    CheckProofOfWork false hash nBits params = false := by
  have hbit : nBits / 2 ^ 23 % 2 = 1 := by
    rw [Nat.testBit_to_div_mod] at hsign
    simpa using hsign
  have hbad : (SetCompact nBits).2.1 = true ∨ (SetCompact nBits).1 = 0 := by
    by_cases hw : nBits % 2 ^ 23 = 0
    · right
      unfold SetCompact
      simp only [hw]
      split_ifs <;> simp
    · left
      unfold SetCompact
      simp only []
      rw [decide_eq_true hw, decide_eq_true hbit]
      rfl
  have hnone : ∀ limit : uint256, DeriveTarget nBits limit = none := by
    intro limit
    rw [deriveTarget_eq_none_iff]
    rcases hbad with h | h
    · exact Or.inl h
    · exact Or.inr (Or.inr (Or.inl h))
  refine ⟨hnone pow_limit, ?_⟩
  simp [CheckProofOfWork, CheckProofOfWorkImpl, hnone params.powLimit]

/-- Witness for C13: the sign bit alone on top of exponent `0x1d`, with a zero
mantissa, on the main network. -/
theorem deriveTarget_of_sign_bit_witness :
    DeriveTarget 0x1d800000 mainPowLimit = none ∧
    CheckProofOfWork false 0 0x1d800000 mainParams = false :=
  deriveTarget_of_sign_bit 0x1d800000 mainPowLimit 0 mainParams (by decide)

/-! ## Round trips through the codec -/

/-- Decoding after encoding is monotone on 256-bit targets. -/
theorem setCompact_getCompact_mono (t₁ t₂ : Nat) (hle : t₁ ≤ t₂) (h₂ : t₂ < 2 ^ 256) :
    (SetCompact (GetCompact t₁)).1 ≤ (SetCompact (GetCompact t₂)).1 := by
  have h₁ : t₁ < 2 ^ 256 := lt_of_le_of_lt hle h₂
  exact setCompact_le_setCompact_getCompact (GetCompact t₁) t₂ h₂
    (le_trans (setCompact_getCompact_le t₁ h₁) hle)

/-- C14: for every 256-bit target `t`, decoding its encoding gives a target
that is at most `t`, with neither the negative nor the overflow flag raised;
and a target that is itself a decoding is reproduced exactly by the round
trip. -/
theorem setCompact_getCompact_roundtrip (t : Nat) (ht : t < 2 ^ 256) (nCompact : Nat) :
    ((SetCompact (GetCompact t)).1 ≤ t ∧
      (SetCompact (GetCompact t)).2.1 = false ∧
      (SetCompact (GetCompact t)).2.2 = false) ∧
    (SetCompact (GetCompact (SetCompact nCompact).1)).1 = (SetCompact nCompact).1 := by
  refine ⟨⟨setCompact_getCompact_le t ht, ?_, ?_⟩, ?_⟩
  · obtain ⟨j, hj, _, _⟩ := setCompact_getCompact t ht
    rw [hj]
  · obtain ⟨j, hj, _, _⟩ := setCompact_getCompact t ht
    rw [hj]
  · apply le_antisymm
    · exact setCompact_getCompact_le _ (setCompact_lt nCompact)
    · exact setCompact_le_setCompact_getCompact nCompact _ (setCompact_lt nCompact)
        (le_refl _)

set_option maxRecDepth 100000 in
/-- Witness for C14: the main-network `powLimit`, which loses its low bytes in
the round trip, and the genesis bits `0x1e0ffff0`, which are reproduced. -/
theorem setCompact_getCompact_roundtrip_witness :
    ((SetCompact (GetCompact mainPowLimit)).1 ≤ mainPowLimit ∧
      (SetCompact (GetCompact mainPowLimit)).2.1 = false ∧
      (SetCompact (GetCompact mainPowLimit)).2.2 = false) ∧
    (SetCompact (GetCompact (SetCompact 0x1e0ffff0).1)).1 = (SetCompact 0x1e0ffff0).1 :=
  setCompact_getCompact_roundtrip mainPowLimit (by decide) 0x1e0ffff0

/-! ## The retarget result in general -/

theorem clampTimespan_nonneg (x T : Int) (hT : 0 < T) : 0 ≤ clampTimespan x T := by
  rw [clampTimespan_eq x T hT]
  omega

/-- The value of `CalculateNextWorkRequired` with retargeting enabled: the
encoding of the capped exact quotient when the product fits in 256 bits, and no
result when it does not. -/
theorem calculateNextWorkRequired_eq (pindexLast baseBlock : CBlockIndex)
    (nFirstBlockTime interval : Int) (params : Params)
    (hretarget : params.fPowNoRetargeting = false)
    (hT : 0 < params.nPowTargetTimespan)
    (hbase : if params.enforce_BIP94 = true then
        params.DifficultyAdjustmentInterval = some interval ∧
          pindexLast.GetAncestor (pindexLast.nHeight - (interval - 1)) = some baseBlock
      else baseBlock = pindexLast) :
    CalculateNextWorkRequired pindexLast nFirstBlockTime params =
      if (SetCompact baseBlock.nBits).1 *
          (clampTimespan (pindexLast.GetBlockTime - nFirstBlockTime)
            params.nPowTargetTimespan).toNat < 2 ^ 256 then
        some (GetCompact (min
          ((SetCompact baseBlock.nBits).1 *
              (clampTimespan (pindexLast.GetBlockTime - nFirstBlockTime)
                params.nPowTargetTimespan).toNat /
            params.nPowTargetTimespan.toNat)
          (UintToArith256 params.powLimit)))
      else none := by
  have hmin : ∀ a b : Nat, (if a > b then b else a) = min a b := by
    intro a b
    split_ifs <;> omega
  have hts := clampTimespan_nonneg (pindexLast.GetBlockTime - nFirstBlockTime)
    params.nPowTargetTimespan hT
  unfold CalculateNextWorkRequired
  rw [if_neg (by simp [hretarget])]
  generalize clampTimespan (pindexLast.GetBlockTime - nFirstBlockTime)
    params.nPowTargetTimespan = ts at hts
  by_cases hb : params.enforce_BIP94 = true
  · rw [if_pos hb] at hbase
    simp only [hb, if_true, hbase.1, hbase.2]
    by_cases hfit : (SetCompact baseBlock.nBits).1 * ts.toNat < 2 ^ 256
    · rw [mul256_of_fits _ _ hts hfit, if_pos hfit]
      simp only []
      rw [div256_of_pos _ _ hT]
      simp only [hmin]
    · rw [mul256_of_overflow _ _ hts (by omega), if_neg hfit]
  · rw [if_neg hb] at hbase
    subst hbase
    have hfalse : params.enforce_BIP94 = false := by simpa using hb
    simp only [hfalse, Bool.false_eq_true, if_false]
    by_cases hfit : (SetCompact baseBlock.nBits).1 * ts.toNat < 2 ^ 256
    · rw [mul256_of_fits _ _ hts hfit, if_pos hfit]
      simp only []
      rw [div256_of_pos _ _ hT]
      simp only [hmin]
    · rw [mul256_of_overflow _ _ hts (by omega), if_neg hfit]

/-- C16: with retargeting enabled and a positive target timespan, every bits
that `CalculateNextWorkRequired` returns decode to at most `powLimit`,
whatever the bits of the base block were (the last block, or under
`enforce_BIP94` its ancestor at height `nHeight - (interval - 1)`); and bits
are returned whenever the product of the base target and the clamped timespan
fits in 256 bits. -/
theorem calculateNextWorkRequired_le_powLimit (pindexLast baseBlock : CBlockIndex)
    (nFirstBlockTime interval : Int) (params : Params)
    (hretarget : params.fPowNoRetargeting = false)
    (hT : 0 < params.nPowTargetTimespan)
    (hbase : if params.enforce_BIP94 = true then
        params.DifficultyAdjustmentInterval = some interval ∧
          pindexLast.GetAncestor (pindexLast.nHeight - (interval - 1)) = some baseBlock
      else baseBlock = pindexLast) :
    (∀ nBits, CalculateNextWorkRequired pindexLast nFirstBlockTime params = some nBits →
      (SetCompact nBits).1 ≤ UintToArith256 params.powLimit) ∧
    ((SetCompact baseBlock.nBits).1 *
        (clampTimespan (pindexLast.GetBlockTime - nFirstBlockTime)
          params.nPowTargetTimespan).toNat < 2 ^ 256 →
      ∃ nBits, CalculateNextWorkRequired pindexLast nFirstBlockTime params = some nBits ∧
        (SetCompact nBits).1 ≤ UintToArith256 params.powLimit) := by
  have heq := calculateNextWorkRequired_eq pindexLast baseBlock nFirstBlockTime interval params
    hretarget hT hbase
  generalize clampTimespan (pindexLast.GetBlockTime - nFirstBlockTime)
    params.nPowTargetTimespan = ts at heq
  have hbound : (SetCompact baseBlock.nBits).1 * ts.toNat < 2 ^ 256 →
      (SetCompact (GetCompact (min
        ((SetCompact baseBlock.nBits).1 * ts.toNat / params.nPowTargetTimespan.toNat)
        (UintToArith256 params.powLimit)))).1 ≤ UintToArith256 params.powLimit := by
    intro hfit
    have hq : (SetCompact baseBlock.nBits).1 * ts.toNat / params.nPowTargetTimespan.toNat
        < 2 ^ 256 := lt_of_le_of_lt (Nat.div_le_self _ _) hfit
    have hm := Nat.min_le_left
      ((SetCompact baseBlock.nBits).1 * ts.toNat / params.nPowTargetTimespan.toNat)
      (UintToArith256 params.powLimit)
    exact le_trans (setCompact_getCompact_le _ (lt_of_le_of_lt hm hq)) (Nat.min_le_right _ _)
  constructor
  · intro nBits hret
    by_cases hfit : (SetCompact baseBlock.nBits).1 * ts.toNat < 2 ^ 256
    · rw [heq, if_pos hfit] at hret
      cases hret
      exact hbound hfit
    · rw [heq, if_neg hfit] at hret
      cases hret
  · intro hfit
    exact ⟨_, by rw [heq, if_pos hfit], hbound hfit⟩

set_option maxRecDepth 100000 in
/-- Witness for C16: on the main network a last block with the bits
`0x1e200000`, which decode to `2 ^ 237`, above `powLimit`, and a window four
times too long; the product fits and the returned bits respect `powLimit`. -/
theorem calculateNextWorkRequired_le_powLimit_witness :
    ∃ nBits, CalculateNextWorkRequired (.genesis 0 1691800000 0x1e200000) 0 mainParams =
        some nBits ∧
      (SetCompact nBits).1 ≤ UintToArith256 mainParams.powLimit :=
  (calculateNextWorkRequired_le_powLimit (.genesis 0 1691800000 0x1e200000)
    (.genesis 0 1691800000 0x1e200000) 0 2016 mainParams rfl (by decide) rfl).2 (by decide)

/-! ## The test-mode override -/

set_option maxRecDepth 100000 in
theorem byte_top_bit_clear_iff : ∀ b, b < 256 → (b &&& 0x80 = 0 ↔ b / 128 % 2 = 0) := by
  decide

/-- C18: with the test-mode override on, `CheckProofOfWork` is the fixed
predicate "bit `0x80` of byte 31 of the hash is clear"; it reads neither the
bits nor the parameters, so two calls on the same hash always agree. -/
theorem checkProofOfWork_override (hash : uint256) (nBits nBits' : Nat)
    (params params' : Params) :
    CheckProofOfWork true hash nBits params = decide (uint256.data hash 31 &&& 0x80 = 0) ∧
    CheckProofOfWork true hash nBits params = CheckProofOfWork true hash nBits' params' := by
  have hbyte : uint256.data hash 31 < 256 := Nat.mod_lt _ (by decide)
  have hiff := byte_top_bit_clear_iff (uint256.data hash 31) hbyte
  refine ⟨?_, ?_⟩
  · unfold CheckProofOfWork
    rw [if_pos rfl]
    exact decide_eq_decide.2 hiff.symm
  · unfold CheckProofOfWork
    rw [if_pos rfl, if_pos rfl]

/-! ## Products that need more than 256 bits -/

/-- C15: for a positive target timespan `T`, an input whose product of the
decoded base target and the timespan scalar needs more than 256 bits makes
`CalculateNextWorkRequired` (retargeting enabled, base block present) and
`PermittedDifficultyTransition` (at a window boundary) report a failure; and
whenever one of them returns a result, the product fitted in 256 bits and the
result is the one computed from the exact product. -/
theorem overflow_reported (params : Params) (hT : 0 < params.nPowTargetTimespan) :
    (∀ (pindexLast baseBlock : CBlockIndex) (nFirstBlockTime interval : Int),
      params.fPowNoRetargeting = false →
      (if params.enforce_BIP94 = true then
        params.DifficultyAdjustmentInterval = some interval ∧
          pindexLast.GetAncestor (pindexLast.nHeight - (interval - 1)) = some baseBlock
      else baseBlock = pindexLast) →
      (2 ^ 256 ≤ (SetCompact baseBlock.nBits).1 *
          (clampTimespan (pindexLast.GetBlockTime - nFirstBlockTime)
            params.nPowTargetTimespan).toNat →
        CalculateNextWorkRequired pindexLast nFirstBlockTime params = none) ∧
      (∀ nBits, CalculateNextWorkRequired pindexLast nFirstBlockTime params = some nBits →
        (SetCompact baseBlock.nBits).1 *
            (clampTimespan (pindexLast.GetBlockTime - nFirstBlockTime)
              params.nPowTargetTimespan).toNat < 2 ^ 256 ∧
          nBits = GetCompact (min
            ((SetCompact baseBlock.nBits).1 *
                (clampTimespan (pindexLast.GetBlockTime - nFirstBlockTime)
                  params.nPowTargetTimespan).toNat /
              params.nPowTargetTimespan.toNat)
            (UintToArith256 params.powLimit)))) ∧
    (∀ (height interval : Int) (old_nbits new_nbits : Nat),
      params.fPowAllowMinDifficultyBlocks = false →
      params.DifficultyAdjustmentInterval = some interval →
      interval ≠ 0 →
      interval ∣ height →
      (2 ^ 256 ≤ (SetCompact old_nbits).1 * (4 * params.nPowTargetTimespan.toNat) →
        PermittedDifficultyTransition params height old_nbits new_nbits = none) ∧
      (∀ answer, PermittedDifficultyTransition params height old_nbits new_nbits = some answer →
        (SetCompact old_nbits).1 * (4 * params.nPowTargetTimespan.toNat) < 2 ^ 256 ∧
          answer = decide (specMinimumNewTarget params old_nbits ≤ (SetCompact new_nbits).1 ∧
            (SetCompact new_nbits).1 ≤ specMaximumNewTarget params old_nbits))) := by
  constructor
  · intro pindexLast baseBlock nFirstBlockTime interval hretarget hbase
    have heq := calculateNextWorkRequired_eq pindexLast baseBlock nFirstBlockTime interval
      params hretarget hT hbase
    constructor
    · intro hover
      rw [heq, if_neg (by omega)]
    · intro nBits hret
      by_cases hfit : (SetCompact baseBlock.nBits).1 *
          (clampTimespan (pindexLast.GetBlockTime - nFirstBlockTime)
            params.nPowTargetTimespan).toNat < 2 ^ 256
      · rw [heq, if_pos hfit] at hret
        cases hret
        exact ⟨hfit, rfl⟩
      · rw [heq, if_neg hfit] at hret
        cases hret
  · intro height interval old_nbits new_nbits hallow hinterval hnonzero hheight
    constructor
    · intro hover
      exact permittedDifficultyTransition_boundary_overflow params height interval old_nbits
        new_nbits hallow hT hinterval hnonzero hheight hover
    · intro answer hret
      by_cases hfit : (SetCompact old_nbits).1 * (4 * params.nPowTargetTimespan.toNat)
          < 2 ^ 256
      · rw [permittedDifficultyTransition_boundary_eq params height interval old_nbits
          new_nbits hallow hT hinterval hnonzero hheight hfit] at hret
        cases hret
        exact ⟨hfit, rfl⟩
      · rw [permittedDifficultyTransition_boundary_overflow params height interval old_nbits
          new_nbits hallow hT hinterval hnonzero hheight (by omega)] at hret
        cases hret

set_option maxRecDepth 100000 in
/-- Witness for C15: on the main network the last block `overflowBlock`
(target `2 ^ 255`) with an observed timespan of 90720 seconds, and the
transition from its bits at height 4032; both products need more than 256
bits and both operations fail. -/
theorem overflow_reported_witness :
    CalculateNextWorkRequired overflowBlock (1691800000 - 90720) mainParams = none ∧
    PermittedDifficultyTransition mainParams 4032 0x21008000 0x1e0fffff = none :=
  ⟨((overflow_reported mainParams (by decide)).1 overflowBlock overflowBlock
      (1691800000 - 90720) 2016 rfl rfl).1 (by decide),
    ((overflow_reported mainParams (by decide)).2 4032 2016 0x21008000 0x1e0fffff
      rfl (by decide) (by decide) (by decide)).1 (by decide)⟩

/-! ## The ancestor requested under `enforce_BIP94` -/

theorem walk_of_wellFormed (n : Nat) :
    ∀ b : CBlockIndex, b.wellFormed = true → (n : Int) ≤ b.nHeight →
      ∃ a, CBlockIndex.walk n b = some a ∧ a.nHeight = b.nHeight - n ∧
        a.wellFormed = true := by
  induction n with
  | zero =>
    intro b hwf _
    exact ⟨b, rfl, by simp, hwf⟩
  | succ n ih =>
    intro b hwf hle
    cases b with
    | genesis h t bits =>
      have hheight : (CBlockIndex.genesis h t bits).nHeight = h := rfl
      simp only [CBlockIndex.wellFormed, decide_eq_true_eq] at hwf
      rw [hheight] at hle
      omega
    | child h t bits p =>
      have hheight : (CBlockIndex.child h t bits p).nHeight = h := rfl
      simp only [CBlockIndex.wellFormed, Bool.and_eq_true, decide_eq_true_eq] at hwf
      rw [hheight] at hle ⊢
      obtain ⟨a, ha, hh, hawf⟩ := ih p hwf.2 (by omega)
      refine ⟨a, ?_, ?_, hawf⟩
      · simp only [CBlockIndex.walk, CBlockIndex.pprev]
        exact ha
      · rw [hh]
        push_cast
        omega

theorem getAncestor_of_wellFormed (b : CBlockIndex) (height : Int)
    (hwf : b.wellFormed = true) (h0 : 0 ≤ height) (hle : height ≤ b.nHeight) :
    ∃ a, b.GetAncestor height = some a ∧ a.nHeight = height := by
  unfold CBlockIndex.GetAncestor
  rw [if_neg (by omega)]
  obtain ⟨a, ha, hh, _⟩ := walk_of_wellFormed (b.nHeight - height).toNat b hwf (by omega)
  exact ⟨a, ha, by rw [hh]; omega⟩

/-- C17: when the adjustment interval is at least 1 and the last block closes
a window (`nHeight + 1` is a positive multiple of the interval), the height
`nHeight - (interval - 1)` requested under `enforce_BIP94` lies in
`[0, nHeight]`; on a well-formed chain the ancestor lookup therefore succeeds,
and with retargeting enabled, a positive timespan and a product that fits in
256 bits `CalculateNextWorkRequired` returns bits. -/
theorem calculateNextWorkRequired_ancestor_in_range (pindexLast : CBlockIndex)
    (nFirstBlockTime interval k : Int) (params : Params)
    (hwf : pindexLast.wellFormed = true)
    (hbip : params.enforce_BIP94 = true)
    (hretarget : params.fPowNoRetargeting = false)
    (hinterval : params.DifficultyAdjustmentInterval = some interval)
    (hone : 1 ≤ interval)
    (hk : 1 ≤ k)
    (hwindow : pindexLast.nHeight + 1 = k * interval) :
    0 ≤ pindexLast.nHeight - (interval - 1) ∧
    pindexLast.nHeight - (interval - 1) ≤ pindexLast.nHeight ∧
    (∃ pindexFirst,
      pindexLast.GetAncestor (pindexLast.nHeight - (interval - 1)) = some pindexFirst ∧
      pindexFirst.nHeight = pindexLast.nHeight - (interval - 1)) ∧
    (0 < params.nPowTargetTimespan →
      ∀ pindexFirst,
        pindexLast.GetAncestor (pindexLast.nHeight - (interval - 1)) = some pindexFirst →
        (SetCompact pindexFirst.nBits).1 *
            (clampTimespan (pindexLast.GetBlockTime - nFirstBlockTime)
              params.nPowTargetTimespan).toNat < 2 ^ 256 →
        ∃ nBits, CalculateNextWorkRequired pindexLast nFirstBlockTime params = some nBits) := by
  have hge : interval ≤ k * interval := by
    have := Int.mul_le_mul_of_nonneg_right hk (by omega : (0 : Int) ≤ interval)
    simpa using this
  have h0 : 0 ≤ pindexLast.nHeight - (interval - 1) := by omega
  have hle : pindexLast.nHeight - (interval - 1) ≤ pindexLast.nHeight := by omega
  obtain ⟨a, ha, hh⟩ := getAncestor_of_wellFormed pindexLast _ hwf h0 hle
  refine ⟨h0, hle, ⟨a, ha, hh⟩, ?_⟩
  intro hT pindexFirst hfirst hfit
  have heq := calculateNextWorkRequired_eq pindexLast pindexFirst nFirstBlockTime interval
    params hretarget hT (by rw [if_pos hbip]; exact ⟨hinterval, hfirst⟩)
  rw [if_pos hfit] at heq
  exact ⟨_, heq⟩

set_option maxRecDepth 100000 in
/-- Witness for C17: the scenario chain (heights 0 and 1) closes a window of
two blocks under `bip94Params`; the requested height is 0, the lookup finds
the block at height 0, and bits are returned. -/
theorem calculateNextWorkRequired_ancestor_in_range_witness :
    ((0 : Int) ≤ scenarioChain.nHeight - (2 - 1) ∧
      scenarioChain.nHeight - (2 - 1) ≤ scenarioChain.nHeight ∧
      (∃ pindexFirst,
        scenarioChain.GetAncestor (scenarioChain.nHeight - (2 - 1)) = some pindexFirst ∧
        pindexFirst.nHeight = scenarioChain.nHeight - (2 - 1))) ∧
    (∃ nBits, CalculateNextWorkRequired scenarioChain 1691800100 bip94Params = some nBits) :=
  have h := calculateNextWorkRequired_ancestor_in_range scenarioChain 1691800100 2 1
    bip94Params (by decide) rfl rfl (by decide) (by decide) (by decide) (by decide)
  ⟨⟨h.1, h.2.1, h.2.2.1⟩,
    h.2.2.2 (by decide) (.genesis 0 1691800000 0x1e0ffff0) rfl (by decide)⟩

/-! ## The main network stays in range -/

theorem mainParams_product_lt (t n : Nat) (ht : t ≤ UintToArith256 mainParams.powLimit)
    (hn : n ≤ 4 * 90720) : t * n < 2 ^ 256 := by
  have hlim : UintToArith256 mainParams.powLimit < 2 ^ 236 := by decide
  have h1 : t * n ≤ 2 ^ 236 * (4 * 90720) := Nat.mul_le_mul (by omega) hn
  have h2 : 2 ^ 236 * (4 * 90720) < 2 ^ 256 := by decide
  omega

/-- C19: on the main network (`powLimit = 2 ^ 236 - 1`, `T = 90720`), for
every bits that `DeriveTarget` accepts and every timespan `ts` in
`[T / 4, 4 * T]`, the product `target * ts` stays below `2 ^ 256`: the 256-bit
multiply returns the exact product and the quotient is the exact
`target * ts / T`. So
`CalculateNextWorkRequired` on a last block with these bits and
`PermittedDifficultyTransition` from these bits at a window boundary compute
with the exact values. -/
theorem mainParams_no_wrap (nBits t : Nat) (ts : Int)
    (hderive : DeriveTarget nBits mainParams.powLimit = some t)
    (hlo : mainParams.nPowTargetTimespan / 4 ≤ ts)
    (hhi : ts ≤ mainParams.nPowTargetTimespan * 4) :
    t * ts.toNat < 2 ^ 256 ∧
    mul256 t ts = some (t * ts.toNat) ∧
    div256 (t * ts.toNat) mainParams.nPowTargetTimespan = some (t * ts.toNat / 90720) ∧
    (∀ (pindexLast : CBlockIndex) (nFirstBlockTime : Int), pindexLast.nBits = nBits →
      CalculateNextWorkRequired pindexLast nFirstBlockTime mainParams =
        some (GetCompact (min
          (t * (clampTimespan (pindexLast.GetBlockTime - nFirstBlockTime) 90720).toNat / 90720)
          (UintToArith256 mainParams.powLimit)))) ∧
    (∀ (height : Int) (new_nbits : Nat), (2016 : Int) ∣ height →
      PermittedDifficultyTransition mainParams height nBits new_nbits =
        some (decide (specMinimumNewTarget mainParams nBits ≤ (SetCompact new_nbits).1 ∧
          (SetCompact new_nbits).1 ≤ specMaximumNewTarget mainParams nBits))) := by
  have hT : mainParams.nPowTargetTimespan = 90720 := by decide
  have hTpos : 0 < mainParams.nPowTargetTimespan := by decide
  have hTnat : mainParams.nPowTargetTimespan.toNat = 90720 := by decide
  obtain ⟨ht, _, _, _, hle⟩ := (deriveTarget_eq_some_iff nBits mainParams.powLimit t).1 hderive
  rw [← ht] at hle
  rw [hT] at hlo hhi
  have hts0 : 0 ≤ ts := by omega
  have htsn : ts.toNat ≤ 4 * 90720 := by omega
  have hfit := mainParams_product_lt t ts.toNat hle htsn
  have hmul := mul256_of_fits t ts hts0 hfit
  refine ⟨hfit, hmul, ?_, ?_, ?_⟩
  · rw [div256_of_pos _ _ hTpos, hTnat]
  · intro pindexLast nFirstBlockTime hbits
    have hc := clampTimespan_eq (pindexLast.GetBlockTime - nFirstBlockTime) 90720 (by decide)
    have hc0 : 0 ≤ clampTimespan (pindexLast.GetBlockTime - nFirstBlockTime) 90720 := by
      rw [hc]
      omega
    have hcn : (clampTimespan (pindexLast.GetBlockTime - nFirstBlockTime) 90720).toNat
        ≤ 4 * 90720 := by
      rw [hc]
      omega
    rw [calculateNextWorkRequired_eq pindexLast pindexLast nFirstBlockTime 2016 mainParams rfl
      hTpos rfl, hbits, ← ht, hT, if_pos (mainParams_product_lt t _ hle hcn)]
    rfl
  · intro height new_nbits hheight
    exact permittedDifficultyTransition_boundary_eq mainParams height 2016 nBits new_nbits rfl
      hTpos (by decide) (by decide) hheight
      (by
        rw [← ht, hTnat]
        exact mainParams_product_lt t _ hle (le_refl _))

set_option maxRecDepth 100000 in
/-- Witness for C19: the genesis bits `0x1e0ffff0` with the longest clamped
timespan `4 * T`. -/
theorem mainParams_no_wrap_witness :
    (SetCompact 0x1e0ffff0).1 * (362880 : Int).toNat < 2 ^ 256 ∧
    mul256 (SetCompact 0x1e0ffff0).1 362880 =
      some ((SetCompact 0x1e0ffff0).1 * (362880 : Int).toNat) :=
  have h := mainParams_no_wrap 0x1e0ffff0 (SetCompact 0x1e0ffff0).1 362880
    (by decide) (by decide) (by decide)
  ⟨h.1, h.2.1⟩

/-! ## The retarget is a permitted transition -/

/-- C20: with `fPowAllowMinDifficultyBlocks`, `fPowNoRetargeting` and
`enforce_BIP94` all off, a positive target timespan `T` and a last block whose
target times `4 * T` fits in 256 bits, the bits that
`CalculateNextWorkRequired` returns are a permitted transition from the bits
of the last block at every height that is a multiple of the (non-zero)
adjustment interval. -/
theorem permitted_of_calculateNextWorkRequired (pindexLast : CBlockIndex)
    (nFirstBlockTime height interval : Int) (params : Params)
    (hallow : params.fPowAllowMinDifficultyBlocks = false)
    (hretarget : params.fPowNoRetargeting = false)
    (hbip : params.enforce_BIP94 = false)
    (hT : 0 < params.nPowTargetTimespan)
    (hinterval : params.DifficultyAdjustmentInterval = some interval)
    (hnonzero : interval ≠ 0)
    (hheight : interval ∣ height)
    (hfit : (SetCompact pindexLast.nBits).1 * (4 * params.nPowTargetTimespan.toNat)
      < 2 ^ 256) :
    ∃ new_nbits, CalculateNextWorkRequired pindexLast nFirstBlockTime params = some new_nbits ∧
      PermittedDifficultyTransition params height pindexLast.nBits new_nbits = some true := by
  have hcalc := calculateNextWorkRequired_eq pindexLast pindexLast nFirstBlockTime interval
    params hretarget hT (by rw [if_neg (by simp [hbip])])
  have hc := clampTimespan_eq (pindexLast.GetBlockTime - nFirstBlockTime)
    params.nPowTargetTimespan hT
  have hc0 : 0 ≤ clampTimespan (pindexLast.GetBlockTime - nFirstBlockTime)
      params.nPowTargetTimespan := clampTimespan_nonneg _ _ hT
  have hclo : params.nPowTargetTimespan.toNat / 4 ≤
      (clampTimespan (pindexLast.GetBlockTime - nFirstBlockTime)
        params.nPowTargetTimespan).toNat := by
    rw [hc]
    omega
  have hchi : (clampTimespan (pindexLast.GetBlockTime - nFirstBlockTime)
      params.nPowTargetTimespan).toNat ≤ 4 * params.nPowTargetTimespan.toNat := by
    rw [hc]
    omega
  generalize clampTimespan (pindexLast.GetBlockTime - nFirstBlockTime)
    params.nPowTargetTimespan = ts at hc0 hclo hchi hcalc
  have hfits : (SetCompact pindexLast.nBits).1 * ts.toNat < 2 ^ 256 :=
    lt_of_le_of_lt (Nat.mul_le_mul_left _ hchi) hfit
  rw [if_pos hfits] at hcalc
  refine ⟨_, hcalc, ?_⟩
  rw [permittedDifficultyTransition_boundary_eq params height interval pindexLast.nBits _
    hallow hT hinterval hnonzero hheight hfit]
  unfold specMinimumNewTarget specMaximumNewTarget
  generalize (SetCompact pindexLast.nBits).1 = D at hfit hfits
  generalize params.nPowTargetTimespan.toNat = T at hfit hclo hchi
  generalize UintToArith256 params.powLimit = P
  have hmax256 : min (D * (4 * T) / T) P < 2 ^ 256 :=
    lt_of_le_of_lt (Nat.min_le_left _ _) (lt_of_le_of_lt (Nat.div_le_self _ _) hfit)
  have hmid_le : min (D * ts.toNat / T) P ≤ min (D * (4 * T) / T) P :=
    min_le_min (Nat.div_le_div_right (Nat.mul_le_mul_left _ hchi)) (le_refl _)
  have hlow_le : min (D * (T / 4) / T) P ≤ min (D * ts.toNat / T) P :=
    min_le_min (Nat.div_le_div_right (Nat.mul_le_mul_left _ hclo)) (le_refl _)
  have h1 := setCompact_getCompact_mono _ _ hlow_le (lt_of_le_of_lt hmid_le hmax256)
  have h2 := setCompact_getCompact_mono _ _ hmid_le hmax256
  simp [h1, h2]

set_option maxRecDepth 100000 in
/-- Witness for C20: the scenario chain on the main network, with a window
that started 90000 seconds before the last block, checked at height 2016. -/
theorem permitted_of_calculateNextWorkRequired_witness :
    ∃ new_nbits, CalculateNextWorkRequired scenarioChain 1691710200 mainParams =
        some new_nbits ∧
      PermittedDifficultyTransition mainParams 2016 scenarioChain.nBits new_nbits =
        some true :=
  permitted_of_calculateNextWorkRequired scenarioChain 1691710200 2016 2016 mainParams
    rfl rfl rfl (by decide) (by decide) (by decide) (by decide) (by decide)

end PureCoin
